import Mathlib

/-!
Verification of the fronthaul capacity-dimensioning engine: a shallow
embedding (over `ℚ`, idealizing Python floats) of the core algorithms of
`app.py`, `link_capacity_estimation.py` and `topology_optimizer.py`, and
theorems about them.
-/

namespace Nokia

/-- `SLOT_DURATION_SEC = 0.0005` (500 µs), identical in `app.py` line 142 and
`link_capacity_estimation.py` line 12. -/
def SLOT_DURATION_SEC : ℚ := 5 / 10000

/-- `SYMBOL_DURATION_SEC = 35.7e-6` (`app.py` line 143). -/
def SYMBOL_DURATION_SEC : ℚ := 357 / 10000000

/-- `GBPS_SCALE = 1e9` (`app.py` line 144, `link_capacity_estimation.py` line 15). -/
def GBPS_SCALE : ℚ := 1000000000

/-- Python `int(x)` and numpy `.astype(int)`: truncation toward zero. -/
def pyInt (x : ℚ) : ℤ := if 0 ≤ x then ⌊x⌋ else ⌈x⌉

/-- `np.mean` of a series (sum divided by length; `0/0 = 0` on the empty list,
which callers never pass). -/
def npMean (l : List ℚ) : ℚ := l.sum / l.length

/-- `np.max` of a series. `np.max` raises on an empty array; callers guarantee
non-emptiness, the `[]` case is an arbitrary total-function default. -/
def npMax : List ℚ → ℚ
  | [] => 0
  | x :: xs => xs.foldl max x

/-- `.min()` of a series (pandas column minimum). Same empty-case convention
as `npMax`. -/
def npMin : List ℚ → ℚ
  | [] => 0
  | x :: xs => xs.foldl min x

/-- State of the queue simulation: running buffer fill (bits) and the number
of slots that overflowed (`loss` in `app.py`, `loss_slots` in
`link_capacity_estimation.py`). -/
structure SimState where
  buffer : ℚ
  loss : ℕ
deriving DecidableEq, Repr

/-- One slot of the queue simulation, the shared loop body of
`calculate_capacity_with_buffer` (`app.py` lines 329-337) and
`find_required_capacity_with_buffer` (`link_capacity_estimation.py` lines
88-100): arrival, drain (any backlog at most one slot's service is cleared to
zero), then tail-drop overflow check against the buffer bound. -/
def simStep (cap maxB : ℚ) (s : SimState) (bits : ℚ) : SimState :=
  let b1 := s.buffer + bits
  let b2 := if cap < b1 then b1 - cap else 0
  if maxB < b2 then ⟨maxB, s.loss + 1⟩ else ⟨b2, s.loss⟩

/-- Loss count of the full simulation loop of `app.py` lines 326-337
(no early exit). -/
def simLoss (trafficBits : List ℚ) (cap maxB : ℚ) : ℕ :=
  (trafficBits.foldl (simStep cap maxB) ⟨0, 0⟩).loss

/-- The simulation loop of `link_capacity_estimation.py` lines 84-105,
including the early `break` once `loss_slots > max_allowed_loss_slots`
(lines 104-105).  Returns the state at loop exit. -/
def simLossBreakAux (cap maxB : ℚ) (maxAllowed : ℤ) : List ℚ → SimState → SimState
  | [], s => s
  | bits :: rest, s =>
      let s1 := simStep cap maxB s bits
      if maxAllowed < (s1.loss : ℤ) then s1
      else simLossBreakAux cap maxB maxAllowed rest s1

/-- Binary-search state: `low`, `high` and `best_c` of both solvers. -/
structure SearchState where
  low : ℚ
  high : ℚ
  best : ℚ
deriving DecidableEq, Repr

/-- One binary-search iteration (loop body of `app.py` lines 321-343 and
`link_capacity_estimation.py` lines 74-111), abstracted over the feasibility
check `F` performed at the midpoint: if the midpoint is feasible, record it as
best and move `high` down, else move `low` up. -/
def searchStep (F : ℚ → Bool) (st : SearchState) : SearchState :=
  let c := (st.low + st.high) / 2
  if F c then ⟨st.low, c, c⟩ else ⟨c, st.high, st.best⟩

/-- Feasibility check of `app.py` lines 322-339 for trial capacity `c`:
simulate and compare the loss count against the allowance. -/
def appFeasible (trafficBits : List ℚ) (bufferTime : ℚ) (maxAllowed : ℤ) (c : ℚ) : Bool :=
  let cap := c * GBPS_SCALE * SLOT_DURATION_SEC
  let maxB := bufferTime * (c * GBPS_SCALE)
  decide ((simLoss trafficBits cap maxB : ℤ) ≤ maxAllowed)

/-- Feasibility check of `link_capacity_estimation.py` lines 75-107 for trial
capacity `c` (simulation with the early `break`). -/
def estFeasible (trafficBits : List ℚ) (slotDuration bufferTime : ℚ) (maxAllowed : ℤ)
    (c : ℚ) : Bool :=
  let cap := c * GBPS_SCALE * slotDuration
  let maxB := bufferTime * (c * GBPS_SCALE)
  decide (((simLossBreakAux cap maxB maxAllowed trafficBits ⟨0, 0⟩).loss : ℤ) ≤ maxAllowed)

/-- `calculate_capacity_with_buffer(traffic_gbps, buffer_symbols, max_loss_pct)`
of `app.py` lines 308-345: 15-iteration binary search between the series mean
and max, driven by the queue simulation. -/
def calculate_capacity_with_buffer (traffic_gbps : List ℚ) (buffer_symbols : ℕ)
    (max_loss_pct : ℚ) : ℚ :=
  let buffer_time_sec := (buffer_symbols : ℚ) * SYMBOL_DURATION_SEC
  let low := npMean traffic_gbps
  let high := npMax traffic_gbps
  let traffic_bits := traffic_gbps.map (fun g => g * GBPS_SCALE * SLOT_DURATION_SEC)
  let max_allowed_loss := pyInt ((traffic_gbps.length : ℚ) * (max_loss_pct / 100))
  ((searchStep (appFeasible traffic_bits buffer_time_sec max_allowed_loss))^[15]
    ⟨low, high, high⟩).best

/-- `find_required_capacity_with_buffer(traffic_gbps, buffer_time, slot_duration,
max_loss_pct)` of `link_capacity_estimation.py` lines 57-113: same binary
search, but the buffer is given directly as a time and the simulation loop has
the early `break`. -/
def find_required_capacity_with_buffer (traffic_gbps : List ℚ)
    (buffer_time slot_duration max_loss_pct : ℚ) : ℚ :=
  let low := npMean traffic_gbps
  let high := npMax traffic_gbps
  let traffic_bits := traffic_gbps.map (fun g => g * GBPS_SCALE * slot_duration)
  let max_allowed_loss_slots := pyInt ((traffic_gbps.length : ℚ) * (max_loss_pct / 100))
  ((searchStep (estFeasible traffic_bits slot_duration buffer_time max_allowed_loss_slots))^[15]
    ⟨low, high, high⟩).best

/-- `LINK_SPEEDS` of `app.py` line 147 (`2.5 = 5/2`). -/
def LINK_SPEEDS : List ℚ := [1, 5/2, 5, 10, 25, 40, 50, 100, 400]

/-- `LINK_COSTS` of `app.py` lines 150-160. -/
def LINK_COSTS : List (ℚ × ℚ) :=
  [(1, 45000), (5/2, 85000), (5, 125000), (10, 170000), (25, 680000),
   (40, 1275000), (50, 1500000), (100, 2975000), (400, 8500000)]

/-- `LINK_SPEEDS` of `topology_optimizer.py` line 19. -/
def TOPO_LINK_SPEEDS : List ℚ := [1, 10, 25, 40, 100]

/-- `DEFAULT_LINK_COSTS` of `topology_optimizer.py` lines 12-18. -/
def DEFAULT_LINK_COSTS : List (ℚ × ℚ) :=
  [(1, 45000), (10, 170000), (25, 680000), (40, 1275000), (100, 2975000)]

/-- Python dict lookup `d[k]` as a partial operation: `none` models the raised
`KeyError`.  Dicts are modelled as association lists with unique keys. -/
def dictLookup (t : List (ℚ × ℚ)) (k : ℚ) : Option ℚ :=
  (t.find? (fun p => decide (p.1 = k))).map Prod.snd

/-- The peak-traffic guardrail of `recommend_link_speed` (`app.py` lines
356-359): `peak_ok` is true unless a supplied peak exceeds the tier speed. -/
def peakOk (peak_gbps : Option ℚ) (speed : ℚ) : Bool :=
  match peak_gbps with
  | none => true
  | some p => decide (p ≤ speed)

/-- The `for speed in LINK_SPEEDS` loop of `recommend_link_speed` (`app.py`
lines 349-363): first tier passing both the 80%-utilization check and the
peak guardrail; `400` if none does. -/
def recommendFrom (required_gbps : ℚ) (peak_gbps : Option ℚ) : List ℚ → ℚ
  | [] => 400
  | s :: rest =>
      if decide (required_gbps ≤ s * (4/5)) && peakOk peak_gbps s then s
      else recommendFrom required_gbps peak_gbps rest

/-- `recommend_link_speed(required_gbps, peak_gbps=None)` of `app.py` lines
347-363. -/
def recommend_link_speed (required_gbps : ℚ) (peak_gbps : Option ℚ) : ℚ :=
  recommendFrom required_gbps peak_gbps LINK_SPEEDS

/-- The `for speed in LINK_SPEEDS` loop of `get_required_speed`
(`topology_optimizer.py` lines 21-25): first tier whose 80% utilization covers
the value, `100` as fallback. -/
def getRequiredSpeedFrom (gbps_val : ℚ) : List ℚ → ℚ
  | [] => 100
  | s :: rest =>
      if decide (gbps_val ≤ s * (4/5)) then s else getRequiredSpeedFrom gbps_val rest

/-- `get_required_speed(gbps_val)` of `topology_optimizer.py` lines 21-25. -/
def get_required_speed (gbps_val : ℚ) : ℚ :=
  getRequiredSpeedFrom gbps_val TOPO_LINK_SPEEDS

/-- `calculate_sla_score(traffic_gbps, capacity_gbps)` of `app.py` lines
365-370: fraction of slots whose traffic does not strictly exceed the
capacity, on a 0-100 scale. -/
def calculate_sla_score (traffic_gbps : List ℚ) (capacity_gbps : ℚ) : ℚ :=
  let exceeded := (traffic_gbps.filter (fun x => decide (capacity_gbps < x))).length
  (1 - (exceeded : ℚ) / (traffic_gbps.length : ℚ)) * 100

/-- Slot-index assignment of `app.py` lines 248-249 (same formula at
`link_capacity_estimation.py` lines 152-154): truncated quotient of the offset
from the dataset-wide minimum timestamp by the slot duration. -/
def slot_index (times : List ℚ) (t : ℚ) : ℤ :=
  pyInt ((t - npMin times) / SLOT_DURATION_SEC)

/-- One row of the traffic DataFrame handed to the topology optimizer:
`cell_id`, `slot_idx` and `bits` columns (slot indices already computed). -/
structure Sample where
  cell_id : ℕ
  slot_idx : ℕ
  bits : ℚ
deriving DecidableEq, Repr

/-- Python dict lookup (cell → link label) used by `df['cell_id'].map(mapping)`
in `calculate_topology_cost`; `none` (pandas `NaN`) for unmapped cells, whose
rows the subsequent `groupby` drops. -/
def mapLookup (m : List (ℕ × String)) (c : ℕ) : Option String :=
  (m.find? (fun p => decide (p.1 = c))).map Prod.snd

/-- Order-preserving de-duplication (first occurrence kept), modelling
iteration over Python dict values / `pd.unique`. -/
def dedupFirst {α : Type} [DecidableEq α] (l : List α) : List α :=
  l.foldl (fun acc x => if x ∈ acc then acc else acc ++ [x]) []

/-- The `groupby(['link_id','slot_idx'])['bits'].sum()` rows for one link
(`topology_optimizer.py` line 39): the per-observed-slot summed bit volumes of
the cells mapped to `link`. -/
def linkSlotBits (df : List Sample) (mapping : List (ℕ × String)) (link : String) : List ℚ :=
  let rows := df.filter (fun r => decide (mapLookup mapping r.cell_id = some link))
  (dedupFirst (rows.map (fun r => r.slot_idx))).map
    (fun s => ((rows.filter (fun r => decide (r.slot_idx = s))).map (fun r => r.bits)).sum)

/-- `calculate_topology_cost(df, mapping, slot_duration, gbps_scale, link_costs)`
of `topology_optimizer.py` lines 29-63.  `link_costs = none` models the Python
`None` default replaced by `DEFAULT_LINK_COSTS`; the result is `none` when the
direct dict indexing `link_costs[req_speed]` (line 59) raises `KeyError`.
Returns the total cost and the per-link `(link, peak, speed, cost)` details. -/
def calculate_topology_cost (df : List Sample) (mapping : List (ℕ × String))
    (slot_duration gbps_scale : ℚ) (link_costs : Option (List (ℚ × ℚ))) :
    Option (ℚ × List (String × ℚ × ℚ × ℚ)) :=
  let costs := link_costs.getD DEFAULT_LINK_COSTS
  let links := dedupFirst (mapping.map Prod.snd)
  links.foldlM
    (fun (acc : ℚ × List (String × ℚ × ℚ × ℚ)) link => do
      let sums := linkSlotBits df mapping link
      let peak_gbps : ℚ :=
        match sums with
        | [] => 0
        | x :: xs => ((xs.foldl max x) / slot_duration) / gbps_scale
      let req_speed := get_required_speed peak_gbps
      let cost ← dictLookup costs req_speed
      pure (acc.1 + cost, acc.2 ++ [(link, peak_gbps, req_speed, cost)]))
    (0, [])

/-- The candidate mapping built inside the optimizer loop
(`topology_optimizer.py` lines 93-98): cell at position `idx` of the shuffled
list goes to link `min(idx // chunk_size + 1, num_links)`. -/
def mkMapping (cells : List ℕ) (num_links chunk_size : ℕ) : List (ℕ × String) :=
  cells.enum.map (fun p => (p.2, "Link_" ++ toString (min (p.1 / chunk_size + 1) num_links)))

/-- Running state of the optimizer loop: the (mutably shuffled) cell list and
the best mapping / cost / details so far. -/
structure OptState where
  cells : List ℕ
  best_mapping : List (ℕ × String)
  best_cost : WithTop ℚ
  best_details : List (String × ℚ × ℚ × ℚ)

/-- `optimize_topology(df, num_links, iterations, link_costs)` of
`topology_optimizer.py` lines 65-108.  `random.shuffle` mutates the cell list
in place; the injected `shuffle i` models the permutation the RNG applies at
iteration `i` to the current list.  `best_cost` starts at `float('inf')`
(modelled by `⊤ : WithTop ℚ`), `best_mapping` and `best_details` start empty.
The chunk size `-(-n // k)` is the ceiling division `(n + k - 1) / k` for
`k > 0` (Python raises `ZeroDivisionError` for `num_links = 0`, a case outside
every claim).  A `none` result models a `KeyError` escaping from
`calculate_topology_cost`. -/
def optimize_topology (df : List Sample) (num_links iterations : ℕ)
    (link_costs : Option (List (ℚ × ℚ))) (shuffle : ℕ → List ℕ → List ℕ) :
    Option (List (ℕ × String) × WithTop ℚ × List (String × ℚ × ℚ × ℚ)) :=
  let unique_cells := dedupFirst (df.map (fun r => r.cell_id))
  let init : OptState := ⟨unique_cells, [], ⊤, []⟩
  let run : Option OptState := (List.range iterations).foldlM
    (fun (st : OptState) i => do
      let cells := shuffle i st.cells
      let chunk_size := (cells.length + num_links - 1) / num_links
      let mapping := mkMapping cells num_links chunk_size
      let (cost, details) ← calculate_topology_cost df mapping (5/10000) 1000000000 link_costs
      pure (if (cost : WithTop ℚ) < st.best_cost then
              (⟨cells, mapping, (cost : WithTop ℚ), details⟩ : OptState)
            else (⟨cells, st.best_mapping, st.best_cost, st.best_details⟩ : OptState)))
    init
  run.map (fun st => (st.best_mapping, st.best_cost, st.best_details))

/-- The pure bisection recurrence underlying both solvers: `n` halvings of
`[low, high]`, answering the final `high`.  Both solvers are proved equal to
it (their `best_c` always coincides with `high`). -/
def bisect (F : ℚ → Bool) : ℕ → ℚ → ℚ → ℚ
  | 0, _low, high => high
  | n + 1, low, high =>
      let c := (low + high) / 2
      if F c then bisect F n low c else bisect F n c high

/-! Helper lemmas about folds, extrema and `pyInt`. -/

theorem le_foldl_max (xs : List ℚ) (a : ℚ) : a ≤ xs.foldl max a := by
  induction xs generalizing a with
  | nil => exact le_refl a
  | cons x xs ih => exact le_trans (le_max_left a x) (ih (max a x))

theorem mem_le_foldl_max (xs : List ℚ) (a x : ℚ) (hx : x ∈ xs) : x ≤ xs.foldl max a := by
  induction xs generalizing a with
  | nil => cases hx
  | cons y ys ih =>
      rcases List.mem_cons.mp hx with h | h
      · subst h
        exact le_trans (le_max_right a x) (le_foldl_max ys (max a x))
      · exact ih (max a y) h

theorem mem_le_npMax (l : List ℚ) (x : ℚ) (hx : x ∈ l) : x ≤ npMax l := by
  cases l with
  | nil => cases hx
  | cons y ys =>
      rcases List.mem_cons.mp hx with h | h
      · subst h; exact le_foldl_max ys x
      · exact mem_le_foldl_max ys y x h

theorem npMax_nonneg (l : List ℚ) (hl : l ≠ []) (h : ∀ x ∈ l, 0 ≤ x) : 0 ≤ npMax l := by
  cases l with
  | nil => exact absurd rfl hl
  | cons y ys =>
      exact le_trans (h y (List.mem_cons_self y ys)) (mem_le_npMax (y :: ys) y (List.mem_cons_self y ys))

theorem npMean_le_npMax (l : List ℚ) (hl : l ≠ []) : npMean l ≤ npMax l := by
  have hlen : 0 < (l.length : ℚ) := by
    have : 0 < l.length := List.length_pos.mpr hl
    exact_mod_cast this
  have hsum : l.sum ≤ l.length • npMax l :=
    List.sum_le_card_nsmul l (npMax l) (fun x hx => mem_le_npMax l x hx)
  rw [nsmul_eq_mul] at hsum
  rw [npMean, div_le_iff₀ hlen]
  linarith [hsum]

theorem npMean_nonneg (l : List ℚ) (h : ∀ x ∈ l, 0 ≤ x) : 0 ≤ npMean l := by
  have hsum : 0 ≤ l.sum := List.sum_nonneg h
  have hlen : (0 : ℚ) ≤ l.length := by positivity
  exact div_nonneg hsum hlen

theorem foldl_min_le (xs : List ℚ) (a : ℚ) : xs.foldl min a ≤ a := by
  induction xs generalizing a with
  | nil => exact le_refl a
  | cons x xs ih => exact le_trans (ih (min a x)) (min_le_left a x)

theorem foldl_min_le_mem (xs : List ℚ) (a x : ℚ) (hx : x ∈ xs) : xs.foldl min a ≤ x := by
  induction xs generalizing a with
  | nil => cases hx
  | cons y ys ih =>
      rcases List.mem_cons.mp hx with h | h
      · subst h
        exact le_trans (foldl_min_le ys (min a x)) (min_le_right a x)
      · exact ih (min a y) h

theorem npMin_le_mem (l : List ℚ) (x : ℚ) (hx : x ∈ l) : npMin l ≤ x := by
  cases l with
  | nil => cases hx
  | cons y ys =>
      rcases List.mem_cons.mp hx with h | h
      · subst h; exact foldl_min_le ys x
      · exact foldl_min_le_mem ys y x h

theorem pyInt_eq_floor (x : ℚ) (h : 0 ≤ x) : pyInt x = ⌊x⌋ := if_pos h

theorem pyInt_nonneg (x : ℚ) (h : 0 ≤ x) : 0 ≤ pyInt x := by
  rw [pyInt_eq_floor x h]
  exact Int.floor_nonneg.mpr h

/-! Lemmas about the queue simulation. -/

theorem simStep_loss_le (cap maxB : ℚ) (s : SimState) (b : ℚ) :
    s.loss ≤ (simStep cap maxB s b).loss := by
  simp only [simStep]
  split_ifs <;> dsimp only <;> omega

theorem foldl_simStep_loss_le (cap maxB : ℚ) (l : List ℚ) (s : SimState) :
    s.loss ≤ (l.foldl (simStep cap maxB) s).loss := by
  induction l generalizing s with
  | nil => exact le_refl _
  | cons b rest ih =>
      exact le_trans (simStep_loss_le cap maxB s b) (ih (simStep cap maxB s b))

/-- Post-slot buffer bounds: for a non-negative buffer limit the buffer level
after any slot lies in `[0, maxB]`, regardless of the previous state, the
arrival volume sign, or the (possibly negative) per-slot service. -/
theorem simStep_buffer_bounds (cap maxB : ℚ) (hB : 0 ≤ maxB) (s : SimState) (b : ℚ) :
    0 ≤ (simStep cap maxB s b).buffer ∧ (simStep cap maxB s b).buffer ≤ maxB := by
  simp only [simStep]
  split_ifs <;> dsimp only <;> constructor <;> linarith

/-- The coupling step: if one run has at most the service rate and at most the
buffer bound of the other, its buffer stays within `B2 - B1` above the other's
and it never loses a slot the other run keeps. -/
theorem simStep_coupled (cap1 cap2 B1 B2 : ℚ) (hcap : cap1 ≤ cap2) (hB : B1 ≤ B2)
    (s1 s2 : SimState) (b : ℚ)
    (hbuf : s2.buffer ≤ s1.buffer + (B2 - B1)) (hloss : s2.loss ≤ s1.loss) :
    (simStep cap2 B2 s2 b).buffer ≤ (simStep cap1 B1 s1 b).buffer + (B2 - B1) ∧
    (simStep cap2 B2 s2 b).loss ≤ (simStep cap1 B1 s1 b).loss := by
  have hΔ : (0:ℚ) ≤ B2 - B1 := by linarith
  have hd : (if cap2 < s2.buffer + b then s2.buffer + b - cap2 else 0) ≤
      (if cap1 < s1.buffer + b then s1.buffer + b - cap1 else 0) + (B2 - B1) := by
    split <;> rename_i h2 <;> split <;> rename_i h1 <;> push_neg at * <;> linarith
  have hd1 : (0:ℚ) ≤ (if cap1 < s1.buffer + b then s1.buffer + b - cap1 else 0) := by
    split <;> rename_i h1
    · linarith
    · exact le_refl 0
  simp only [simStep]
  by_cases hc2 : B2 < (if cap2 < s2.buffer + b then s2.buffer + b - cap2 else 0)
  · have hc1 : B1 < (if cap1 < s1.buffer + b then s1.buffer + b - cap1 else 0) := by linarith
    rw [if_pos hc2, if_pos hc1]
    exact ⟨by dsimp only; linarith, by dsimp only; omega⟩
  · rw [if_neg hc2]
    push_neg at hc2
    by_cases hc1 : B1 < (if cap1 < s1.buffer + b then s1.buffer + b - cap1 else 0)
    · rw [if_pos hc1]
      exact ⟨by dsimp only; linarith, by dsimp only; omega⟩
    · rw [if_neg hc1]
      push_neg at hc1
      exact ⟨by dsimp only; linarith, by dsimp only; omega⟩

theorem foldl_sim_coupled (cap1 cap2 B1 B2 : ℚ) (hcap : cap1 ≤ cap2) (hB : B1 ≤ B2)
    (l : List ℚ) :
    ∀ s1 s2 : SimState, s2.buffer ≤ s1.buffer + (B2 - B1) → s2.loss ≤ s1.loss →
      (l.foldl (simStep cap2 B2) s2).buffer
          ≤ (l.foldl (simStep cap1 B1) s1).buffer + (B2 - B1) ∧
      (l.foldl (simStep cap2 B2) s2).loss ≤ (l.foldl (simStep cap1 B1) s1).loss := by
  induction l with
  | nil => exact fun s1 s2 hbuf hloss => ⟨hbuf, hloss⟩
  | cons b rest ih =>
      intro s1 s2 hbuf hloss
      have h := simStep_coupled cap1 cap2 B1 B2 hcap hB s1 s2 b hbuf hloss
      exact ih (simStep cap1 B1 s1 b) (simStep cap2 B2 s2 b) h.1 h.2

/-- Loss-count monotonicity of the queue simulation: raising the service rate
and the buffer bound together never produces more lost slots. -/
theorem simLoss_anti (l : List ℚ) (cap1 cap2 B1 B2 : ℚ) (hcap : cap1 ≤ cap2)
    (hB : B1 ≤ B2) : simLoss l cap2 B2 ≤ simLoss l cap1 B1 := by
  have h := foldl_sim_coupled cap1 cap2 B1 B2 hcap hB l ⟨0, 0⟩ ⟨0, 0⟩
    (by dsimp only; linarith) (le_refl 0)
  exact h.2

/-- When every slot's arrival fits inside one slot of service and the buffer
bound is non-negative, the simulation never queues and never loses. -/
theorem foldl_sim_zero (cap maxB : ℚ) (hB : 0 ≤ maxB) (l : List ℚ)
    (h : ∀ b ∈ l, b ≤ cap) (n : ℕ) :
    l.foldl (simStep cap maxB) ⟨0, n⟩ = ⟨0, n⟩ := by
  induction l with
  | nil => rfl
  | cons b rest ih =>
      have hb : b ≤ cap := h b (List.mem_cons_self b rest)
      have hstep : simStep cap maxB ⟨0, n⟩ b = ⟨0, n⟩ := by
        simp only [simStep]
        have h1 : ¬ cap < (0 : ℚ) + b := by push_neg; linarith
        have h2 : ¬ maxB < (0 : ℚ) := by push_neg; exact hB
        rw [if_neg h1, if_neg h2]
      rw [List.foldl_cons, hstep]
      exact ih (fun x hx => h x (List.mem_cons_of_mem b hx))

/-- The early `break` of `link_capacity_estimation.py` never changes the
feasibility verdict: the exit state violates the allowance exactly when the
full simulation does. -/
theorem simLossBreakAux_verdict (cap maxB : ℚ) (M : ℤ) (l : List ℚ) :
    ∀ s : SimState,
      (((simLossBreakAux cap maxB M l s).loss : ℤ) ≤ M ↔
        ((l.foldl (simStep cap maxB) s).loss : ℤ) ≤ M) := by
  induction l with
  | nil => intro s; exact Iff.rfl
  | cons b rest ih =>
      intro s
      simp only [simLossBreakAux, List.foldl_cons]
      by_cases h : M < ((simStep cap maxB s b).loss : ℤ)
      · rw [if_pos h]
        constructor
        · intro hle; omega
        · intro hle
          have := foldl_simStep_loss_le cap maxB rest (simStep cap maxB s b)
          omega
      · rw [if_neg h]
        exact ih (simStep cap maxB s b)

/-! Lemmas about the bisection search. -/

theorem iterate_searchStep_best (F : ℚ → Bool) (n : ℕ) :
    ∀ lo hi : ℚ, ((searchStep F)^[n] ⟨lo, hi, hi⟩).best = bisect F n lo hi := by
  induction n with
  | zero => intro lo hi; rfl
  | succ n ih =>
      intro lo hi
      rw [Function.iterate_succ_apply]
      simp only [searchStep, bisect]
      by_cases h : F ((lo + hi) / 2)
      · rw [if_pos h, if_pos h]
        exact ih lo ((lo + hi) / 2)
      · rw [if_neg h, if_neg h]
        exact ih ((lo + hi) / 2) hi

theorem bisect_mem (F : ℚ → Bool) (n : ℕ) :
    ∀ lo hi : ℚ, lo ≤ hi → lo ≤ bisect F n lo hi ∧ bisect F n lo hi ≤ hi := by
  induction n with
  | zero => intro lo hi h; exact ⟨h, le_refl hi⟩
  | succ n ih =>
      intro lo hi h
      simp only [bisect]
      by_cases hF : F ((lo + hi) / 2)
      · rw [if_pos hF]
        have := ih lo ((lo + hi) / 2) (by linarith)
        exact ⟨this.1, by linarith [this.2]⟩
      · rw [if_neg hF]
        have := ih ((lo + hi) / 2) hi (by linarith)
        exact ⟨by linarith [this.1], this.2⟩

/-- The bisection always answers a feasible capacity as long as the initial
`high` is feasible. -/
theorem bisect_feasible (F : ℚ → Bool) (n : ℕ) :
    ∀ lo hi : ℚ, F hi = true → F (bisect F n lo hi) = true := by
  induction n with
  | zero => intro lo hi h; exact h
  | succ n ih =>
      intro lo hi h
      simp only [bisect]
      by_cases hF : F ((lo + hi) / 2)
      · rw [if_pos hF]; exact ih lo ((lo + hi) / 2) hF
      · rw [if_neg hF]; exact ih ((lo + hi) / 2) hi h

theorem bisect_const (F : ℚ → Bool) (n : ℕ) (a : ℚ) : bisect F n a a = a := by
  induction n with
  | zero => rfl
  | succ n ih =>
      simp only [bisect]
      have hmid : (a + a) / 2 = a := by ring
      rw [hmid]
      split <;> exact ih

/-- Antitonicity of the bisection in the feasibility predicate: a pointwise
weaker-to-stronger implication on the non-negative axis can only lower the
answer (the searched interval stays inside `[lo, hi] ⊆ [0, ∞)`). -/
theorem bisect_anti (F1 F2 : ℚ → Bool)
    (h : ∀ c, 0 ≤ c → F1 c = true → F2 c = true) (n : ℕ) :
    ∀ lo hi : ℚ, 0 ≤ lo → lo ≤ hi → bisect F2 n lo hi ≤ bisect F1 n lo hi := by
  induction n with
  | zero => intro lo hi _ _; exact le_refl hi
  | succ n ih =>
      intro lo hi hlo hlh
      have hc0 : 0 ≤ (lo + hi) / 2 := by linarith
      have hcl : lo ≤ (lo + hi) / 2 := by linarith
      have hch : (lo + hi) / 2 ≤ hi := by linarith
      simp only [bisect]
      by_cases h1 : F1 ((lo + hi) / 2)
      · have h2 : F2 ((lo + hi) / 2) = true := h _ hc0 h1
        rw [if_pos h1, if_pos h2]
        exact ih lo ((lo + hi) / 2) hlo hcl
      · rw [if_neg h1]
        by_cases h2 : F2 ((lo + hi) / 2)
        · rw [if_pos h2]
          calc bisect F2 n lo ((lo + hi) / 2) ≤ (lo + hi) / 2 :=
                (bisect_mem F2 n lo ((lo + hi) / 2) hcl).2
            _ ≤ bisect F1 n ((lo + hi) / 2) hi :=
                (bisect_mem F1 n ((lo + hi) / 2) hi hch).1
        · rw [if_neg h2]
          exact ih ((lo + hi) / 2) hi hc0 hch

/-! Bridging the two solver definitions to the bisection recurrence. -/

theorem calculate_eq_bisect (S : List ℚ) (b : ℕ) (L : ℚ) :
    calculate_capacity_with_buffer S b L =
      bisect (appFeasible (S.map (fun g => g * GBPS_SCALE * SLOT_DURATION_SEC))
        ((b : ℚ) * SYMBOL_DURATION_SEC) (pyInt ((S.length : ℚ) * (L / 100))))
        15 (npMean S) (npMax S) := by
  simp only [calculate_capacity_with_buffer]
  exact iterate_searchStep_best _ 15 (npMean S) (npMax S)

theorem find_eq_bisect (S : List ℚ) (bt sd L : ℚ) :
    find_required_capacity_with_buffer S bt sd L =
      bisect (estFeasible (S.map (fun g => g * GBPS_SCALE * sd)) sd bt
        (pyInt ((S.length : ℚ) * (L / 100))))
        15 (npMean S) (npMax S) := by
  simp only [find_required_capacity_with_buffer]
  exact iterate_searchStep_best _ 15 (npMean S) (npMax S)

theorem appFeasible_eq_estFeasible (tb : List ℚ) (bt : ℚ) (M : ℤ) :
    appFeasible tb bt M = estFeasible tb SLOT_DURATION_SEC bt M := by
  funext c
  simp only [appFeasible, estFeasible, simLoss]
  rw [decide_eq_decide]
  exact (simLossBreakAux_verdict _ _ _ _ ⟨0, 0⟩).symm

/-- The maximum observed rate is always a feasible capacity: at `c = max(S)`
every slot's arrival fits into one slot of service, the buffer never fills,
and the loss count is `0`. -/
theorem appFeasible_npMax (S : List ℚ) (hne : S ≠ []) (hpos : ∀ x ∈ S, 0 ≤ x)
    (bt : ℚ) (hbt : 0 ≤ bt) (M : ℤ) (hM : 0 ≤ M) :
    appFeasible (S.map (fun g => g * GBPS_SCALE * SLOT_DURATION_SEC)) bt M (npMax S)
      = true := by
  have hG : (0 : ℚ) < GBPS_SCALE := by norm_num [GBPS_SCALE]
  have hSl : (0 : ℚ) < SLOT_DURATION_SEC := by norm_num [SLOT_DURATION_SEC]
  have hmax0 : 0 ≤ npMax S := npMax_nonneg S hne hpos
  have hB : 0 ≤ bt * (npMax S * GBPS_SCALE) :=
    mul_nonneg hbt (mul_nonneg hmax0 hG.le)
  have hall : ∀ x ∈ S.map (fun g => g * GBPS_SCALE * SLOT_DURATION_SEC),
      x ≤ npMax S * GBPS_SCALE * SLOT_DURATION_SEC := by
    intro x hx
    obtain ⟨g, hg, rfl⟩ := List.mem_map.mp hx
    have h1 : g ≤ npMax S := mem_le_npMax S g hg
    have h2 : g * GBPS_SCALE ≤ npMax S * GBPS_SCALE :=
      mul_le_mul_of_nonneg_right h1 hG.le
    exact mul_le_mul_of_nonneg_right h2 hSl.le
  simp only [appFeasible, simLoss, decide_eq_true_eq]
  rw [foldl_sim_zero _ _ hB _ hall 0]
  exact_mod_cast hM

/-- Claim C10: the two solver implementations are equivalent.  For every
series, buffer-symbol count and loss percentage,
`calculate_capacity_with_buffer(series, b, loss)` equals
`find_required_capacity_with_buffer(series, b * SYMBOL_DURATION_SEC,
SLOT_DURATION_SEC, loss)`: the early-exit `break` in the latter's simulation
loop never changes the feasibility verdict of any binary-search iteration, so
both searches follow the same path and return the same capacity. -/
theorem solvers_equivalent (S : List ℚ) (b : ℕ) (L : ℚ) :
    calculate_capacity_with_buffer S b L =
      find_required_capacity_with_buffer S ((b : ℚ) * SYMBOL_DURATION_SEC)
        SLOT_DURATION_SEC L := by
  rw [calculate_eq_bisect, find_eq_bisect, appFeasible_eq_estFeasible]

/-- Claim C1: for every non-empty non-negative traffic series `S`, buffer size
and non-negative loss target `L`, re-running the section-4.2 queue simulation
at the capacity the buffer-aware solver returns yields a loss count of at most
`⌊len(S) * L / 100⌋`: the returned value is either a midpoint that passed the
feasibility check or the initial fallback `max(S)`, and `max(S)` is always
feasible. -/
theorem capacity_meets_loss_target (S : List ℚ) (b : ℕ) (L : ℚ)
    (hne : S ≠ []) (hpos : ∀ x ∈ S, 0 ≤ x) (hL : 0 ≤ L) :
    (simLoss (S.map (fun g => g * GBPS_SCALE * SLOT_DURATION_SEC))
        (calculate_capacity_with_buffer S b L * GBPS_SCALE * SLOT_DURATION_SEC)
        (((b : ℚ) * SYMBOL_DURATION_SEC) *
          (calculate_capacity_with_buffer S b L * GBPS_SCALE)) : ℤ)
      ≤ ⌊(S.length : ℚ) * L / 100⌋ := by
  have hMarg : (0 : ℚ) ≤ (S.length : ℚ) * (L / 100) := by positivity
  have hMnn : 0 ≤ pyInt ((S.length : ℚ) * (L / 100)) := pyInt_nonneg _ hMarg
  have hbt : (0 : ℚ) ≤ (b : ℚ) * SYMBOL_DURATION_SEC := by
    have : (0 : ℚ) ≤ SYMBOL_DURATION_SEC := by norm_num [SYMBOL_DURATION_SEC]
    positivity
  have hfeas := appFeasible_npMax S hne hpos _ hbt _ hMnn
  have hres : appFeasible (S.map (fun g => g * GBPS_SCALE * SLOT_DURATION_SEC))
      ((b : ℚ) * SYMBOL_DURATION_SEC) (pyInt ((S.length : ℚ) * (L / 100)))
      (calculate_capacity_with_buffer S b L) = true := by
    rw [calculate_eq_bisect]
    exact bisect_feasible _ 15 _ _ hfeas
  simp only [appFeasible, decide_eq_true_eq] at hres
  have hM : pyInt ((S.length : ℚ) * (L / 100)) = ⌊(S.length : ℚ) * L / 100⌋ := by
    rw [pyInt_eq_floor _ hMarg, mul_div_assoc]
  rw [hM] at hres
  exact hres

/-- Witness for C1 at `S = [1]`, `b = 0`, `L = 0`. -/
theorem capacity_meets_loss_target_witness :
    (([(1 : ℚ)] : List ℚ) ≠ [] ∧ (∀ x ∈ [(1 : ℚ)], 0 ≤ x) ∧ (0 : ℚ) ≤ 0) ∧
    (simLoss ([(1 : ℚ)].map (fun g => g * GBPS_SCALE * SLOT_DURATION_SEC))
        (calculate_capacity_with_buffer [(1 : ℚ)] 0 0 * GBPS_SCALE * SLOT_DURATION_SEC)
        ((((0 : ℕ) : ℚ) * SYMBOL_DURATION_SEC) *
          (calculate_capacity_with_buffer [(1 : ℚ)] 0 0 * GBPS_SCALE)) : ℤ)
      ≤ ⌊(([(1 : ℚ)].length : ℚ)) * 0 / 100⌋ :=
  ⟨⟨by decide, by decide, le_refl 0⟩,
    capacity_meets_loss_target [(1 : ℚ)] 0 0 (by decide) (by decide) (le_refl 0)⟩

/-- Claim C4: for a fixed non-empty non-negative series and loss target, the
buffer-aware solver is antitone in the buffer size — a larger buffer never
increases the returned minimum capacity. -/
theorem capacity_antitone_in_buffer (S : List ℚ) (L : ℚ) (b1 b2 : ℕ)
    (hne : S ≠ []) (hpos : ∀ x ∈ S, 0 ≤ x) (hb : b1 ≤ b2) :
    calculate_capacity_with_buffer S b2 L ≤ calculate_capacity_with_buffer S b1 L := by
  rw [calculate_eq_bisect, calculate_eq_bisect]
  refine bisect_anti _ _ ?_ 15 (npMean S) (npMax S)
    (npMean_nonneg S hpos) (npMean_le_npMax S hne)
  intro c hc hF1
  simp only [appFeasible, decide_eq_true_eq] at hF1 ⊢
  have hG : (0 : ℚ) ≤ GBPS_SCALE := by norm_num [GBPS_SCALE]
  have hcG : 0 ≤ c * GBPS_SCALE := mul_nonneg hc hG
  have hbtle : (b1 : ℚ) * SYMBOL_DURATION_SEC ≤ (b2 : ℚ) * SYMBOL_DURATION_SEC := by
    have hb12 : (b1 : ℚ) ≤ (b2 : ℚ) := by exact_mod_cast hb
    have hSy : (0 : ℚ) ≤ SYMBOL_DURATION_SEC := by norm_num [SYMBOL_DURATION_SEC]
    exact mul_le_mul_of_nonneg_right hb12 hSy
  have hBle : (b1 : ℚ) * SYMBOL_DURATION_SEC * (c * GBPS_SCALE) ≤
      (b2 : ℚ) * SYMBOL_DURATION_SEC * (c * GBPS_SCALE) :=
    mul_le_mul_of_nonneg_right hbtle hcG
  have hanti := simLoss_anti (S.map (fun g => g * GBPS_SCALE * SLOT_DURATION_SEC))
    (c * GBPS_SCALE * SLOT_DURATION_SEC) (c * GBPS_SCALE * SLOT_DURATION_SEC)
    ((b1 : ℚ) * SYMBOL_DURATION_SEC * (c * GBPS_SCALE))
    ((b2 : ℚ) * SYMBOL_DURATION_SEC * (c * GBPS_SCALE)) (le_refl _) hBle
  omega

/-- Witness for C4 at `S = [0, 2]`, `L = 20`, buffers `0 ≤ 1`. -/
theorem capacity_antitone_in_buffer_witness :
    (([(0 : ℚ), 2] : List ℚ) ≠ [] ∧ (∀ x ∈ [(0 : ℚ), 2], 0 ≤ x) ∧ (0 : ℕ) ≤ 1) ∧
    calculate_capacity_with_buffer [(0 : ℚ), 2] 1 20 ≤
      calculate_capacity_with_buffer [(0 : ℚ), 2] 0 20 :=
  ⟨⟨by decide, by decide, by decide⟩,
    capacity_antitone_in_buffer [(0 : ℚ), 2] 20 0 1 (by decide) (by decide) (by decide)⟩

theorem foldl_max_replicate_zero (n : ℕ) :
    (List.replicate n (0 : ℚ)).foldl max 0 = 0 := by
  induction n with
  | zero => rfl
  | succ n ih =>
      rw [List.replicate_succ, List.foldl_cons, max_self]
      exact ih

/-- Claim C6: on a constant-zero series of any positive length, for any buffer
size and loss target, the solver's `low = mean = 0` and `high = max = 0`,
every simulated midpoint is `0`, the returned capacity is `0`, and the queue
simulation at capacity `0` records zero loss. -/
theorem zero_series_zero_capacity (n b : ℕ) (L : ℚ) :
    npMean (List.replicate (n + 1) (0 : ℚ)) = 0 ∧
    npMax (List.replicate (n + 1) (0 : ℚ)) = 0 ∧
    calculate_capacity_with_buffer (List.replicate (n + 1) (0 : ℚ)) b L = 0 ∧
    simLoss ((List.replicate (n + 1) (0 : ℚ)).map
        (fun g => g * GBPS_SCALE * SLOT_DURATION_SEC)) 0 0 = 0 := by
  have hmean : npMean (List.replicate (n + 1) (0 : ℚ)) = 0 := by
    simp [npMean, List.sum_replicate]
  have hmax : npMax (List.replicate (n + 1) (0 : ℚ)) = 0 := by
    rw [List.replicate_succ, npMax]
    exact foldl_max_replicate_zero n
  refine ⟨hmean, hmax, ?_, ?_⟩
  · rw [calculate_eq_bisect, hmean, hmax]
    exact bisect_const _ 15 0
  · have hmap : (List.replicate (n + 1) (0 : ℚ)).map
        (fun g => g * GBPS_SCALE * SLOT_DURATION_SEC) =
        List.replicate (n + 1) (0 : ℚ) := by
      rw [List.map_replicate]
      norm_num
    rw [hmap, simLoss, foldl_sim_zero 0 0 (le_refl 0) _ ?_ 0]
    intro x hx
    rw [List.eq_of_mem_replicate hx]

/-- Claim C7: the SLA scorer returns exactly `100` whenever the capacity is at
least the series maximum, because it counts the fraction of slots whose
observed rate does not strictly exceed the capacity, on a 0-100 scale. -/
theorem sla_score_full_compliance (S : List ℚ) (c : ℚ) (_hne : S ≠ [])
    (hcap : npMax S ≤ c) : calculate_sla_score S c = 100 := by
  have hfil : S.filter (fun x => decide (c < x)) = [] := by
    rw [List.filter_eq_nil_iff]
    intro a ha
    simp only [decide_eq_true_eq, not_lt]
    exact le_trans (mem_le_npMax S a ha) hcap
  simp only [calculate_sla_score, hfil]
  norm_num

/-- Witness for C7 at `S = [1, 2]`, `c = 3`. -/
theorem sla_score_full_compliance_witness :
    (([(1 : ℚ), 2] : List ℚ) ≠ [] ∧ npMax [(1 : ℚ), 2] ≤ 3) ∧
    calculate_sla_score [(1 : ℚ), 2] 3 = 100 :=
  ⟨⟨by decide, by decide⟩,
    sla_score_full_compliance [(1 : ℚ), 2] 3 (by decide) (by decide)⟩

/-- Claim C8: every sample's slot index equals
`⌊(timestamp - min_timestamp) / SLOT_DURATION⌋` with the minimum taken over
the entire input sample set (one common time axis for all links), and is a
non-negative integer. -/
theorem slot_index_floor_nonneg (ts : List ℚ) (t : ℚ) (_hne : ts ≠ []) (ht : t ∈ ts) :
    slot_index ts t = ⌊(t - npMin ts) / SLOT_DURATION_SEC⌋ ∧ 0 ≤ slot_index ts t := by
  have hmin : npMin ts ≤ t := npMin_le_mem ts t ht
  have hnum : 0 ≤ (t - npMin ts) / SLOT_DURATION_SEC := by
    apply div_nonneg (by linarith)
    norm_num [SLOT_DURATION_SEC]
  exact ⟨pyInt_eq_floor _ hnum, pyInt_nonneg _ hnum⟩

/-- Witness for C8 at `ts = [1, 3]`, `t = 3`. -/
theorem slot_index_floor_nonneg_witness :
    (([(1 : ℚ), 3] : List ℚ) ≠ [] ∧ (3 : ℚ) ∈ [(1 : ℚ), 3]) ∧
    (slot_index [(1 : ℚ), 3] 3 = ⌊((3 : ℚ) - npMin [(1 : ℚ), 3]) / SLOT_DURATION_SEC⌋ ∧
      0 ≤ slot_index [(1 : ℚ), 3] 3) :=
  ⟨⟨by decide, by decide⟩,
    slot_index_floor_nonneg [(1 : ℚ), 3] 3 (by decide) (by decide)⟩

theorem recommendFrom_eq_find (req : ℚ) (peak : Option ℚ) (l : List ℚ) :
    recommendFrom req peak l =
      (l.find? (fun s => decide (req ≤ s * (4/5)) && peakOk peak s)).getD 400 := by
  induction l with
  | nil => rfl
  | cons s rest ih =>
      simp only [recommendFrom, List.find?]
      cases h : (decide (req ≤ s * (4/5)) && peakOk peak s) with
      | true => simp
      | false => simpa using ih

/-- Claim C5: the tier recommender walks the (strictly increasing) tier list
and returns the first tier `t` with `required ≤ 0.8 * t` and, when a peak is
supplied, `peak ≤ t`; in particular `recommend_link_speed(0.5, peak=9) = 10`
(tier 1 fails the peak ceiling) while `recommend_link_speed(0.5, None) = 1`. -/
theorem recommend_link_speed_first_fit :
    List.Pairwise (fun a b => a < b) LINK_SPEEDS ∧
    (∀ (req : ℚ) (peak : Option ℚ), recommend_link_speed req peak =
      (LINK_SPEEDS.find? (fun s => decide (req ≤ s * (4/5)) && peakOk peak s)).getD 400) ∧
    recommend_link_speed (1/2) (some 9) = 10 ∧
    recommend_link_speed (1/2) none = 1 :=
  ⟨by rw [LINK_SPEEDS]; norm_num [List.pairwise_cons],
    fun req peak => recommendFrom_eq_find req peak LINK_SPEEDS,
    by norm_num [recommend_link_speed, recommendFrom, LINK_SPEEDS, peakOk],
    by norm_num [recommend_link_speed, recommendFrom, LINK_SPEEDS, peakOk]⟩

theorem getRequiredSpeedFrom_mem (g : ℚ) (l : List ℚ) :
    getRequiredSpeedFrom g l ∈ l ∨ getRequiredSpeedFrom g l = 100 := by
  induction l with
  | nil => exact Or.inr rfl
  | cons s rest ih =>
      simp only [getRequiredSpeedFrom]
      by_cases h : g ≤ s * (4/5)
      · rw [if_pos (by simpa using h)]
        exact Or.inl (List.mem_cons_self s rest)
      · rw [if_neg (by simpa using h)]
        rcases ih with hm | h100
        · exact Or.inl (List.mem_cons_of_mem s hm)
        · exact Or.inr h100

theorem recommendFrom_mem (req : ℚ) (peak : Option ℚ) (l : List ℚ) :
    recommendFrom req peak l ∈ l ∨ recommendFrom req peak l = 400 := by
  induction l with
  | nil => exact Or.inr rfl
  | cons s rest ih =>
      simp only [recommendFrom]
      by_cases h : (decide (req ≤ s * (4/5)) && peakOk peak s) = true
      · rw [if_pos h]
        exact Or.inl (List.mem_cons_self s rest)
      · rw [if_neg h]
        rcases ih with hm | h400
        · exact Or.inl (List.mem_cons_of_mem s hm)
        · exact Or.inr h400

/-- Claim C3, amended: neither recommender can return a tier outside its own
tier list, so the reporting path's cost lookup (and the topology path with the
DEFAULT cost table) always succeeds; but the topology path's direct dict
indexing has no default fallback and fails on a supplied table missing a tier
(see the counterexample). -/
theorem tier_cost_lookup_safety :
    (∀ g : ℚ, (dictLookup DEFAULT_LINK_COSTS (get_required_speed g)).isSome = true) ∧
    (∀ (req : ℚ) (peak : Option ℚ), recommend_link_speed req peak ∈ LINK_SPEEDS ∧
      (dictLookup LINK_COSTS (recommend_link_speed req peak)).isSome = true) := by
  have hdef : ∀ s ∈ TOPO_LINK_SPEEDS, (dictLookup DEFAULT_LINK_COSTS s).isSome = true := by
    intro s hs
    fin_cases hs <;> norm_num [dictLookup, DEFAULT_LINK_COSTS, List.find?]
  have happ : ∀ s ∈ LINK_SPEEDS, (dictLookup LINK_COSTS s).isSome = true := by
    intro s hs
    fin_cases hs <;> norm_num [dictLookup, LINK_COSTS, List.find?]
  constructor
  · intro g
    rcases getRequiredSpeedFrom_mem g TOPO_LINK_SPEEDS with hm | h100
    · exact hdef _ hm
    · rw [get_required_speed, h100]
      norm_num [dictLookup, DEFAULT_LINK_COSTS, List.find?]
  · intro req peak
    have hmem : recommend_link_speed req peak ∈ LINK_SPEEDS := by
      rcases recommendFrom_mem req peak LINK_SPEEDS with hm | h400
      · exact hm
      · rw [recommend_link_speed, h400]
        simp [LINK_SPEEDS]
    exact ⟨hmem, happ _ hmem⟩

/-- Counterexample for C3 as stated: with the supplied cost table
`{10: 170000}` (no entry for tier 1) and a link whose peak is 0 Gbps,
`get_required_speed` returns tier 1 and the direct `link_costs[req_speed]`
lookup in `calculate_topology_cost` raises `KeyError` (modelled by `none`)
instead of falling back to a default cost. -/
theorem topology_cost_lookup_keyerror :
    calculate_topology_cost [⟨1, 0, 0⟩] [(1, "Link_1")] (5/10000) 1000000000
      (some [(10, 170000)]) = none := by
  norm_num [calculate_topology_cost, linkSlotBits, mapLookup, dedupFirst, dictLookup,
    get_required_speed, getRequiredSpeedFrom, TOPO_LINK_SPEEDS, List.find?, List.foldlM]

theorem optimize_topology_zero_iterations_aux (df : List Sample) (num_links : ℕ)
    (link_costs : Option (List (ℚ × ℚ))) (shuffle : ℕ → List ℕ → List ℕ) :
    optimize_topology df num_links 0 link_costs shuffle = some ([], ⊤, []) := rfl

/-- Claim C2, amended: with `iterations=0` the topology optimizer never raises
and returns its initial accumulator unchanged — the empty mapping, best cost
`float('inf')` (modelled by `⊤ : WithTop ℚ`, not a finite cost) and empty
details.  A finite cost and a populated assignment require `iterations ≥ 1`. -/
theorem optimize_topology_zero_iterations (df : List Sample) (num_links : ℕ)
    (link_costs : Option (List (ℚ × ℚ))) (shuffle : ℕ → List ℕ → List ℕ) :
    optimize_topology df num_links 0 link_costs shuffle = some ([], ⊤, []) :=
  optimize_topology_zero_iterations_aux df num_links link_costs shuffle

/-- Counterexample for C2 as stated: on the one-source data set
`[(cell 1, slot 0, 0 bits)]` with `iterations=0`, the returned total cost is
`float('inf')` — not a finite cost as the claim requires. -/
theorem optimize_topology_zero_cost_not_finite :
    ¬ ∃ q : ℚ, (optimize_topology [⟨1, 0, 0⟩] 3 0 none (fun _ l => l)).map
        (fun r => r.2.1) = some ((q : ℚ) : WithTop ℚ) := by
  rintro ⟨q, hq⟩
  rw [optimize_topology_zero_iterations_aux] at hq
  have h0 : (some (([], ⊤, []) : List (ℕ × String) × WithTop ℚ ×
      List (String × ℚ × ℚ × ℚ))).map (fun r => r.2.1) = some (⊤ : WithTop ℚ) := rfl
  rw [h0] at hq
  have h := Option.some.inj hq
  exact WithTop.coe_ne_top h.symm

theorem scanl_sim_invariant (cap maxB : ℚ) (hB : 0 ≤ maxB) (l : List ℚ) :
    ∀ s : SimState, 0 ≤ s.buffer → s.buffer ≤ maxB →
      ∀ st ∈ l.scanl (simStep cap maxB) s, 0 ≤ st.buffer ∧ st.buffer ≤ maxB := by
  induction l with
  | nil =>
      intro s h0 h1 st hst
      rw [List.scanl_nil, List.mem_singleton] at hst
      subst hst
      exact ⟨h0, h1⟩
  | cons b rest ih =>
      intro s h0 h1 st hst
      rw [List.scanl_cons, List.singleton_append, List.mem_cons] at hst
      rcases hst with h | h
      · subst h; exact ⟨h0, h1⟩
      · have hb := simStep_buffer_bounds cap maxB hB s b
        exact ih (simStep cap maxB s b) hb.1 hb.2 st h

theorem breakAux_buffer_invariant (cap maxB : ℚ) (hB : 0 ≤ maxB) (M : ℤ) (l : List ℚ) :
    ∀ s : SimState, 0 ≤ s.buffer → s.buffer ≤ maxB →
      0 ≤ (simLossBreakAux cap maxB M l s).buffer ∧
        (simLossBreakAux cap maxB M l s).buffer ≤ maxB := by
  induction l with
  | nil => intro s h0 h1; exact ⟨h0, h1⟩
  | cons b rest ih =>
      intro s h0 h1
      simp only [simLossBreakAux]
      have hb := simStep_buffer_bounds cap maxB hB s b
      split
      · exact hb
      · exact ih (simStep cap maxB s b) hb.1 hb.2

/-- Claim C9: invariant of the queue simulation.  For a series of non-negative
per-slot bit volumes, any non-negative trial capacity and buffer duration, the
buffer level after every processed slot (in both implementations: the plain
loop of `app.py` and the early-exit loop of `link_capacity_estimation.py`)
stays within `[0, max_buffer_bits]`. -/
theorem buffer_level_invariant (bits : List ℚ) (c beta : ℚ)
    (_hbits : ∀ x ∈ bits, 0 ≤ x) (hc : 0 ≤ c) (hbeta : 0 ≤ beta) :
    (∀ st ∈ bits.scanl
        (simStep (c * GBPS_SCALE * SLOT_DURATION_SEC) (beta * (c * GBPS_SCALE))) ⟨0, 0⟩,
      0 ≤ st.buffer ∧ st.buffer ≤ beta * (c * GBPS_SCALE)) ∧
    (∀ M : ℤ,
      0 ≤ (simLossBreakAux (c * GBPS_SCALE * SLOT_DURATION_SEC) (beta * (c * GBPS_SCALE))
            M bits ⟨0, 0⟩).buffer ∧
      (simLossBreakAux (c * GBPS_SCALE * SLOT_DURATION_SEC) (beta * (c * GBPS_SCALE))
            M bits ⟨0, 0⟩).buffer ≤ beta * (c * GBPS_SCALE)) := by
  have hG : (0 : ℚ) ≤ GBPS_SCALE := by norm_num [GBPS_SCALE]
  have hB : 0 ≤ beta * (c * GBPS_SCALE) := mul_nonneg hbeta (mul_nonneg hc hG)
  constructor
  · exact scanl_sim_invariant _ _ hB bits ⟨0, 0⟩ (le_refl 0) hB
  · intro M
    exact breakAux_buffer_invariant _ _ hB M bits ⟨0, 0⟩ (le_refl 0) hB

/-- Witness for C9 at `bits = [1]`, `c = 1`, `beta = 1`. -/
theorem buffer_level_invariant_witness :
    ((∀ x ∈ [(1 : ℚ)], 0 ≤ x) ∧ (0 : ℚ) ≤ 1 ∧ (0 : ℚ) ≤ 1) ∧
    ((∀ st ∈ [(1 : ℚ)].scanl
        (simStep (1 * GBPS_SCALE * SLOT_DURATION_SEC) (1 * (1 * GBPS_SCALE))) ⟨0, 0⟩,
      0 ≤ st.buffer ∧ st.buffer ≤ 1 * (1 * GBPS_SCALE)) ∧
    (∀ M : ℤ,
      0 ≤ (simLossBreakAux (1 * GBPS_SCALE * SLOT_DURATION_SEC) (1 * (1 * GBPS_SCALE))
            M [(1 : ℚ)] ⟨0, 0⟩).buffer ∧
      (simLossBreakAux (1 * GBPS_SCALE * SLOT_DURATION_SEC) (1 * (1 * GBPS_SCALE))
            M [(1 : ℚ)] ⟨0, 0⟩).buffer ≤ 1 * (1 * GBPS_SCALE))) :=
  ⟨⟨by decide, by norm_num, by norm_num⟩,
    buffer_level_invariant [(1 : ℚ)] 1 1 (by decide) (by norm_num) (by norm_num)⟩

end Nokia
